import Mathlib

/-!
Verification of the Selection Query Language of this repository.

The authoritative code is the ANTLR-generated parser
`js_modules/dagster-ui/packages/ui-core/src/op-selection/generated/OpSelectionParser.ts`.
Its grammar (read off the rule functions `start`, `expr`, `traversalAllowedExpr`,
`traversal`, `attributeExpr`, `value`) is:

  start               : expr EOF
  expr                : traversalAllowedExpr                      (alt 1)
                      | traversal traversalAllowedExpr traversal  (alt 2)
                      | traversal traversalAllowedExpr            (alt 3)
                      | traversalAllowedExpr traversal            (alt 4)
                      | NOT expr[4]                               (alt 5)
                      | STAR                                      (alt 6)
                      | expr {3 >= p} AND expr[4]                 (left-recursive loop)
                      | expr {2 >= p} OR expr[3]                  (left-recursive loop)
  traversalAllowedExpr: attributeExpr | LPAREN expr RPAREN
  traversal           : STAR | PLUS+
  attributeExpr       : NAME COLON value | NAME_SUBSTRING COLON value
  value               : QUOTED_STRING | UNQUOTED_STRING

The generated parser drives these productions with ANTLR's adaptive (full
context) prediction: at the 6-way primary decision of `expr` it commits to the
unique alternative that admits a viable continuation of the whole input, and the
AND/OR loop and the PLUS+ loop continue greedily while viable.  The shallow
embedding below reproduces this decision procedure directly: the primary
alternative is selected from the lookahead token (plus, for STAR, whether the
next token can begin a `traversalAllowedExpr`, which separates the traversal
alternatives from the bare-STAR AllExpression), a trailing traversal is consumed
exactly when the next token is STAR or PLUS, and the binary-operator loop
continues exactly when the next token is AND (with 3 >= p) or OR (with 2 >= p),
mirroring the `precpred` guards of `expr_sempred`.

Whitespace tokens are discarded before parsing (they never reach the parser),
so the token type below has no WS constructor.  Errors carry the offending
token (`some t`), or `none` when the input ends prematurely.
-/

namespace OpSelection

/-- Token kinds of the OpSelection lexer vocabulary as declared at the top of
`OpSelectionParser.ts` (WS omitted: whitespace is discarded before parsing). -/
inductive TokKind where
  | AND | OR | NOT | STAR | PLUS | COLON | LPAREN | RPAREN
  | NAME | NAME_SUBSTRING | QUOTED_STRING | UNQUOTED_STRING
  deriving DecidableEq

/-- A token: kind, source text, and source position (character offset). -/
structure Tok where
  kind : TokKind
  text : String
  pos : Nat
  deriving DecidableEq

/-- Depth qualifier of a traversal: `*` (unbounded) or a run of `n` `+` tokens
(hop bound `n`), as produced by the `traversal` rule. -/
inductive Trav where
  | star
  | plus (n : Nat)
  deriving DecidableEq

/-- Abstract syntax tree, one constructor per labelled alternative of the
generated parser (`AllExpressionContext`, `AttributeExpressionContext` via
`NameExprContext`/`NameSubstringExprContext`, `NotExpressionContext`,
`AndExpressionContext`, `OrExpressionContext`, `UpTraversalExpressionContext`,
`DownTraversalExpressionContext`, `UpAndDownTraversalExpressionContext`,
`ParenthesizedExpressionContext`). -/
inductive AttrKind where
  | name
  | nameSubstring
  deriving DecidableEq

inductive Ast where
  | all
  | attr (k : AttrKind) (v : String)
  | not (e : Ast)
  | and (l r : Ast)
  | or (l r : Ast)
  | up (q : Trav) (e : Ast)
  | down (e : Ast) (q : Trav)
  | upDown (q1 : Trav) (e : Ast) (q2 : Trav)
  | paren (e : Ast)
  deriving DecidableEq

/-- Result of the `value` rule: the matched token and the remaining input. -/
inductive ValRes where
  | ok (v : Tok) (rest : List Tok)
  | err (e : Option Tok)
  deriving DecidableEq

/-- Result of the `traversal` rule. -/
inductive TravRes where
  | ok (q : Trav) (rest : List Tok)
  | err (e : Option Tok)
  deriving DecidableEq

/-- Result of an expression-producing rule. -/
inductive PRes where
  | ok (a : Ast) (rest : List Tok)
  | err (e : Option Tok)
  deriving DecidableEq

/-- Result of the `start` rule. -/
inductive StartRes where
  | ok (a : Ast)
  | err (e : Option Tok)
  deriving DecidableEq

/-- The `value` rule: exactly one QUOTED_STRING or UNQUOTED_STRING token;
anything else is a syntax error at that token (`recoverInline` path). -/
def value : List Tok → ValRes
  | [] => .err none
  | t :: r =>
    match t.kind with
    | .QUOTED_STRING => .ok t r
    | .UNQUOTED_STRING => .ok t r
    | _ => .err (some t)

/-- The `attributeExpr` rule: `NAME COLON value` (NameExpr) or
`NAME_SUBSTRING COLON value` (NameSubstringExpr); any other leading token is a
no-viable-alternative error at that token. -/
def attributeExpr : List Tok → PRes
  | [] => .err none
  | t :: r =>
    match t.kind with
    | .NAME =>
      match r with
      | [] => .err none
      | c :: r1 =>
        match c.kind with
        | .COLON =>
          match value r1 with
          | .ok v r2 => .ok (.attr .name v.text) r2
          | .err e => .err e
        | _ => .err (some c)
    | .NAME_SUBSTRING =>
      match r with
      | [] => .err none
      | c :: r1 =>
        match c.kind with
        | .COLON =>
          match value r1 with
          | .ok v r2 => .ok (.attr .nameSubstring v.text) r2
          | .err e => .err e
        | _ => .err (some c)
    | _ => .err (some t)

/-- Greedy run of PLUS tokens (the `PLUS+` do-while loop of the `traversal`
rule): number of PLUS tokens consumed and the remaining input. -/
def plusRun : List Tok → Nat × List Tok
  | [] => (0, [])
  | t :: r =>
    match t.kind with
    | .PLUS => ((plusRun r).1 + 1, (plusRun r).2)
    | _ => (0, t :: r)

/-- The `traversal` rule: a single STAR, or a maximal run of `n >= 1` PLUS
tokens denoting hop depth `n`; any other leading token is a
no-viable-alternative error. -/
def traversal : List Tok → TravRes
  | [] => .err none
  | t :: r =>
    match t.kind with
    | .STAR => .ok .star r
    | .PLUS => .ok (.plus ((plusRun r).1 + 1)) (plusRun r).2
    | _ => .err (some t)

/-- Whether the next token can begin a `traversalAllowedExpr`
(FIRST set: NAME, NAME_SUBSTRING, LPAREN). -/
def startsTae : List Tok → Bool
  | [] => false
  | t :: _ =>
    match t.kind with
    | .NAME => true
    | .NAME_SUBSTRING => true
    | .LPAREN => true
    | _ => false

/-- Whether the next token begins a `traversal` (STAR or PLUS). -/
def startsTraversal : List Tok → Bool
  | [] => false
  | t :: _ =>
    match t.kind with
    | .STAR => true
    | .PLUS => true
    | _ => false

/-- Call descriptor for the mutually recursive fragment of the parser:
the `expr` rule at precedence bound `p`, the `traversalAllowedExpr` rule, and
the left-recursive AND/OR loop of `expr` with accumulated left operand. -/
inductive PC where
  | expr (p : Nat) (ts : List Tok)
  | tae (ts : List Tok)
  | loop (p : Nat) (lhs : Ast) (ts : List Tok)

/-- Fueled interpreter of the `expr`/`traversalAllowedExpr` rules and the
AND/OR loop, faithful to the generated parser's decision procedure:

* primary decision of `expr` on the lookahead token (NOT / STAR / PLUS /
  FIRST(traversalAllowedExpr) / otherwise no-viable-alternative at that token),
  where a leading STAR is a traversal qualifier exactly when the following
  token can begin a `traversalAllowedExpr`, and a bare AllExpression otherwise;
* a trailing traversal is consumed exactly when the next token is STAR or PLUS
  (UpAndDown / Down commit before Up / untraversed);
* the loop consumes `AND expr[4]` when `3 >= p` and `OR expr[3]` when `2 >= p`
  (the `precpred` guards), continuing greedily, and exits otherwise. -/
def run : Nat → PC → PRes
  | 0, _ => .err none
  | Nat.succ f, .expr p ts =>
    match ts with
    | [] => .err none
    | t :: r =>
      match t.kind, startsTae r with
      | .NOT, _ =>
        match run f (.expr 4 r) with
        | .ok e r1 => run f (.loop p (.not e) r1)
        | .err e => .err e
      | .STAR, false => run f (.loop p .all r)
      | .STAR, true =>
        match traversal (t :: r) with
        | .ok q r1 =>
          match run f (.tae r1) with
          | .ok a r2 =>
            match startsTraversal r2 with
            | true =>
              match traversal r2 with
              | .ok q2 r3 => run f (.loop p (.upDown q a q2) r3)
              | .err e => .err e
            | false => run f (.loop p (.up q a) r2)
          | .err e => .err e
        | .err e => .err e
      | .PLUS, _ =>
        match traversal (t :: r) with
        | .ok q r1 =>
          match run f (.tae r1) with
          | .ok a r2 =>
            match startsTraversal r2 with
            | true =>
              match traversal r2 with
              | .ok q2 r3 => run f (.loop p (.upDown q a q2) r3)
              | .err e => .err e
            | false => run f (.loop p (.up q a) r2)
          | .err e => .err e
        | .err e => .err e
      | .NAME, _ =>
        match run f (.tae (t :: r)) with
        | .ok a r1 =>
          match startsTraversal r1 with
          | true =>
            match traversal r1 with
            | .ok q2 r2 => run f (.loop p (.down a q2) r2)
            | .err e => .err e
          | false => run f (.loop p a r1)
        | .err e => .err e
      | .NAME_SUBSTRING, _ =>
        match run f (.tae (t :: r)) with
        | .ok a r1 =>
          match startsTraversal r1 with
          | true =>
            match traversal r1 with
            | .ok q2 r2 => run f (.loop p (.down a q2) r2)
            | .err e => .err e
          | false => run f (.loop p a r1)
        | .err e => .err e
      | .LPAREN, _ =>
        match run f (.tae (t :: r)) with
        | .ok a r1 =>
          match startsTraversal r1 with
          | true =>
            match traversal r1 with
            | .ok q2 r2 => run f (.loop p (.down a q2) r2)
            | .err e => .err e
          | false => run f (.loop p a r1)
        | .err e => .err e
      | _, _ => .err (some t)
  | Nat.succ f, .tae ts =>
    match ts with
    | [] => .err none
    | t :: r =>
      match t.kind with
      | .NAME => attributeExpr (t :: r)
      | .NAME_SUBSTRING => attributeExpr (t :: r)
      | .LPAREN =>
        match run f (.expr 0 r) with
        | .ok e r1 =>
          match r1 with
          | [] => .err none
          | c :: r2 =>
            match c.kind with
            | .RPAREN => .ok (.paren e) r2
            | _ => .err (some c)
        | .err e => .err e
      | _ => .err (some t)
  | Nat.succ f, .loop p lhs ts =>
    match ts with
    | [] => .ok lhs []
    | t :: r =>
      if t.kind = .AND ∧ p ≤ 3 then
        match run f (.expr 4 r) with
        | .ok rhs r1 => run f (.loop p (.and lhs rhs) r1)
        | .err e => .err e
      else if t.kind = .OR ∧ p ≤ 2 then
        match run f (.expr 3 r) with
        | .ok rhs r1 => run f (.loop p (.or lhs rhs) r1)
        | .err e => .err e
      else .ok lhs (t :: r)

/-- Fuel sufficient for a token list: every recursive call of `run` is made
after at least one token of progress per three fuel units. -/
def parseFuel (ts : List Tok) : Nat := 3 * ts.length + 2

/-- The `expr` rule at precedence bound `p`. -/
def expr (f p : Nat) (ts : List Tok) : PRes := run f (.expr p ts)

/-- The `traversalAllowedExpr` rule. -/
def traversalAllowedExpr (f : Nat) (ts : List Tok) : PRes := run f (.tae ts)

/-- The `start` rule: `expr EOF`.  On success the whole token stream must have
been consumed; a leftover token is an input-mismatch error at that token. -/
def start (ts : List Tok) : StartRes :=
  match run (parseFuel ts) (.expr 0 ts) with
  | .ok a [] => .ok a
  | .ok _ (t :: _) => .err (some t)
  | .err e => .err e

/-- Number of tokens a traversal qualifier occupies: one STAR, or `n` PLUS. -/
def Trav.tokCount : Trav → Nat
  | .star => 1
  | .plus n => n

/-- Number of tokens an AST covers in the input. -/
def Ast.tokCount : Ast → Nat
  | .all => 1
  | .attr _ _ => 3
  | .not e => 1 + e.tokCount
  | .and l r => l.tokCount + 1 + r.tokCount
  | .or l r => l.tokCount + 1 + r.tokCount
  | .up q e => Trav.tokCount q + e.tokCount
  | .down e q => e.tokCount + Trav.tokCount q
  | .upDown q1 e q2 => Trav.tokCount q1 + e.tokCount + Trav.tokCount q2
  | .paren e => 2 + e.tokCount

/-- The traversal-first primary path of `expr` (alternatives 2 and 3 of the
grammar): leading traversal, `traversalAllowedExpr`, then a trailing traversal
exactly when the next token is STAR or PLUS, then the AND/OR loop.  `run` at
positive fuel on a STAR- or PLUS-led `expr` call unfolds to this. -/
def travPath (f p : Nat) (ts : List Tok) : PRes :=
  match traversal ts with
  | .ok q r1 =>
    match run f (.tae r1) with
    | .ok a r2 =>
      match startsTraversal r2 with
      | true =>
        match traversal r2 with
        | .ok q2 r3 => run f (.loop p (.upDown q a q2) r3)
        | .err e => .err e
      | false => run f (.loop p (.up q a) r2)
    | .err e => .err e
  | .err e => .err e

/-- The `traversalAllowedExpr`-first primary path of `expr` (alternatives 1 and
4): `traversalAllowedExpr`, a trailing traversal exactly when the next token is
STAR or PLUS, then the AND/OR loop. -/
def taePath (f p : Nat) (ts : List Tok) : PRes :=
  match run f (.tae ts) with
  | .ok a r1 =>
    match startsTraversal r1 with
    | true =>
      match traversal r1 with
      | .ok q2 r2 => run f (.loop p (.down a q2) r2)
      | .err e => .err e
    | false => run f (.loop p a r1)
  | .err e => .err e

/-- The `value` rule consumes exactly its one matched token. -/
theorem value_consume (ts : List Tok) (v : Tok) (r : List Tok)
    (h : value ts = .ok v r) :
    ts = v :: r ∧ (v.kind = .QUOTED_STRING ∨ v.kind = .UNQUOTED_STRING) := by
  cases ts with
  | nil => simp [value] at h
  | cons t r0 =>
    cases hk : t.kind <;> simp only [value, hk] at h <;> cases h <;> simp [hk]

/-- The `attributeExpr` rule consumes exactly three tokens
(attribute keyword, colon, value) and yields an attribute node. -/
theorem attributeExpr_consume (ts : List Tok) (a : Ast) (r : List Tok)
    (h : attributeExpr ts = .ok a r) :
    ∃ c, ts = c ++ r ∧ c.length = Ast.tokCount a := by
  cases ts with
  | nil => simp [attributeExpr] at h
  | cons t r0 =>
    cases hk : t.kind
    case NAME =>
      simp only [attributeExpr, hk] at h
      cases r0 with
      | nil => cases h
      | cons c r1 =>
        cases hc : c.kind <;> simp only [hc] at h <;> try cases h
        case COLON =>
          cases hv : value r1 with
          | err e => rw [hv] at h; cases h
          | ok v r2 =>
            rw [hv] at h
            cases h
            obtain ⟨hr1, -⟩ := value_consume _ _ _ hv
            exact ⟨[t, c, v], by simp [hr1], by simp [Ast.tokCount]⟩
    case NAME_SUBSTRING =>
      simp only [attributeExpr, hk] at h
      cases r0 with
      | nil => cases h
      | cons c r1 =>
        cases hc : c.kind <;> simp only [hc] at h <;> try cases h
        case COLON =>
          cases hv : value r1 with
          | err e => rw [hv] at h; cases h
          | ok v r2 =>
            rw [hv] at h
            cases h
            obtain ⟨hr1, -⟩ := value_consume _ _ _ hv
            exact ⟨[t, c, v], by simp [hr1], by simp [Ast.tokCount]⟩
    all_goals simp [attributeExpr, hk] at h

/-- `plusRun` consumes exactly the PLUS tokens it counts. -/
theorem plusRun_consume (ts : List Tok) :
    ∃ c, ts = c ++ (plusRun ts).2 ∧ c.length = (plusRun ts).1 ∧
      ∀ x ∈ c, x.kind = TokKind.PLUS := by
  induction ts with
  | nil => exact ⟨[], rfl, rfl, by simp⟩
  | cons t r ih =>
    cases hk : t.kind <;> simp only [plusRun, hk]
    case PLUS =>
      obtain ⟨c, hc, hl, hall⟩ := ih
      refine ⟨t :: c, by simpa using hc, by simp [hl], ?_⟩
      intro x hx
      rcases List.mem_cons.mp hx with h | h
      · subst h; exact hk
      · exact hall x h
    all_goals exact ⟨[], rfl, rfl, by simp⟩

/-- The `traversal` rule consumes exactly `Trav.tokCount` tokens. -/
theorem traversal_consume (ts : List Tok) (q : Trav) (r : List Tok)
    (h : traversal ts = .ok q r) :
    ∃ c, ts = c ++ r ∧ c.length = Trav.tokCount q := by
  cases ts with
  | nil => simp [traversal] at h
  | cons t r0 =>
    cases hk : t.kind
    case STAR =>
      simp only [traversal, hk] at h
      cases h
      exact ⟨[t], by simp, rfl⟩
    case PLUS =>
      simp only [traversal, hk] at h
      cases h
      obtain ⟨c, hc, hl, -⟩ := plusRun_consume r0
      exact ⟨t :: c, by simp only [List.cons_append]; rw [← hc], by simp [hl, Trav.tokCount]⟩
    all_goals simp [traversal, hk] at h

/-- Consumption property for the traversal-first primary path, given the
consumption properties of `run f` on subcalls. -/
theorem travPath_consume (f p : Nat) (ts : List Tok) (a : Ast) (r : List Tok)
    (ihT : ∀ ts a r, run f (.tae ts) = .ok a r →
      ∃ c, ts = c ++ r ∧ c.length = Ast.tokCount a)
    (ihL : ∀ p lhs ts a r, run f (.loop p lhs ts) = .ok a r →
      ∃ c, ts = c ++ r ∧ Ast.tokCount lhs + c.length = Ast.tokCount a)
    (h : travPath f p ts = .ok a r) :
    ∃ c, ts = c ++ r ∧ c.length = Ast.tokCount a := by
  unfold travPath at h
  split at h
  case h_2 => cases h
  case h_1 q r1 heq1 =>
    split at h
    case h_2 => cases h
    case h_1 a1 r2 heq2 =>
      obtain ⟨c1, hc1, hl1⟩ := traversal_consume _ _ _ heq1
      obtain ⟨c2, hc2, hl2⟩ := ihT _ _ _ heq2
      split at h
      case h_1 =>
        split at h
        case h_2 => cases h
        case h_1 q2 r3 heq3 =>
          obtain ⟨c3, hc3, hl3⟩ := traversal_consume _ _ _ heq3
          obtain ⟨c4, hc4, hl4⟩ := ihL _ _ _ _ _ h
          refine ⟨c1 ++ c2 ++ c3 ++ c4, ?_, ?_⟩
          · rw [hc1, hc2, hc3, hc4]; simp
          · simp only [Ast.tokCount] at hl4
            simp only [List.length_append]
            omega
      case h_2 =>
        obtain ⟨c3, hc3, hl3⟩ := ihL _ _ _ _ _ h
        refine ⟨c1 ++ c2 ++ c3, ?_, ?_⟩
        · rw [hc1, hc2, hc3]; simp
        · simp only [Ast.tokCount] at hl3
          simp only [List.length_append]
          omega

/-- Consumption property for the `traversalAllowedExpr`-first primary path,
given the consumption properties of `run f` on subcalls. -/
theorem taePath_consume (f p : Nat) (ts : List Tok) (a : Ast) (r : List Tok)
    (ihT : ∀ ts a r, run f (.tae ts) = .ok a r →
      ∃ c, ts = c ++ r ∧ c.length = Ast.tokCount a)
    (ihL : ∀ p lhs ts a r, run f (.loop p lhs ts) = .ok a r →
      ∃ c, ts = c ++ r ∧ Ast.tokCount lhs + c.length = Ast.tokCount a)
    (h : taePath f p ts = .ok a r) :
    ∃ c, ts = c ++ r ∧ c.length = Ast.tokCount a := by
  unfold taePath at h
  split at h
  case h_2 => cases h
  case h_1 a1 r1 heq1 =>
    obtain ⟨c1, hc1, hl1⟩ := ihT _ _ _ heq1
    split at h
    case h_1 =>
      split at h
      case h_2 => cases h
      case h_1 q2 r2 heq2 =>
        obtain ⟨c2, hc2, hl2⟩ := traversal_consume _ _ _ heq2
        obtain ⟨c3, hc3, hl3⟩ := ihL _ _ _ _ _ h
        refine ⟨c1 ++ c2 ++ c3, ?_, ?_⟩
        · rw [hc1, hc2, hc3]; simp
        · simp only [Ast.tokCount] at hl3
          simp only [List.length_append]
          omega
    case h_2 =>
      obtain ⟨c2, hc2, hl2⟩ := ihL _ _ _ _ _ h
      refine ⟨c1 ++ c2, ?_, ?_⟩
      · rw [hc1, hc2]; simp
      · simp only [List.length_append]
        omega

/-- Every successful parse of `expr`, `traversalAllowedExpr`, or the AND/OR
loop consumes from the front of the input exactly the tokens its resulting AST
covers: the remaining list is a suffix and the consumed prefix has length
`Ast.tokCount`. -/
theorem run_consume : ∀ f : Nat,
    (∀ p ts a r, run f (.expr p ts) = .ok a r →
      ∃ c, ts = c ++ r ∧ c.length = Ast.tokCount a)
    ∧ (∀ ts a r, run f (.tae ts) = .ok a r →
      ∃ c, ts = c ++ r ∧ c.length = Ast.tokCount a)
    ∧ (∀ p lhs ts a r, run f (.loop p lhs ts) = .ok a r →
      ∃ c, ts = c ++ r ∧ Ast.tokCount lhs + c.length = Ast.tokCount a) := by
  intro f
  induction f with
  | zero =>
    refine ⟨fun p ts a r h => ?_, fun ts a r h => ?_, fun p lhs ts a r h => ?_⟩ <;>
      simp [run] at h
  | succ f ih =>
    obtain ⟨ihE, ihT, ihL⟩ := ih
    refine ⟨?_, ?_, ?_⟩
    · intro p ts a r h
      cases ts with
      | nil => simp [run] at h
      | cons t r0 =>
        simp only [run] at h
        split at h
        · -- NOT
          split at h
          case h_2 => cases h
          case h_1 e r1 heq1 =>
            obtain ⟨c1, hc1, hl1⟩ := ihE _ _ _ _ heq1
            obtain ⟨c2, hc2, hl2⟩ := ihL _ _ _ _ _ h
            refine ⟨t :: c1 ++ c2, ?_, ?_⟩
            · rw [hc1, hc2]; simp
            · simp only [Ast.tokCount] at hl2
              simp only [List.length_cons, List.length_append]
              omega
        · -- STAR, startsTae = false: AllExpression
          obtain ⟨c2, hc2, hl2⟩ := ihL _ _ _ _ _ h
          refine ⟨t :: c2, ?_, ?_⟩
          · rw [hc2]; simp
          · simp only [Ast.tokCount] at hl2
            simp only [List.length_cons]
            omega
        · -- STAR, startsTae = true: traversal-first path
          replace h : travPath f p (t :: r0) = .ok a r := h
          exact travPath_consume f p (t :: r0) a r ihT ihL h
        · -- PLUS: traversal-first path
          replace h : travPath f p (t :: r0) = .ok a r := h
          exact travPath_consume f p (t :: r0) a r ihT ihL h
        · -- NAME
          replace h : taePath f p (t :: r0) = .ok a r := h
          exact taePath_consume f p (t :: r0) a r ihT ihL h
        · -- NAME_SUBSTRING
          replace h : taePath f p (t :: r0) = .ok a r := h
          exact taePath_consume f p (t :: r0) a r ihT ihL h
        · -- LPAREN
          replace h : taePath f p (t :: r0) = .ok a r := h
          exact taePath_consume f p (t :: r0) a r ihT ihL h
        · -- no viable alternative
          cases h
    · intro ts a r h
      cases ts with
      | nil => simp [run] at h
      | cons t r0 =>
        simp only [run] at h
        split at h
        · exact attributeExpr_consume _ _ _ h
        · exact attributeExpr_consume _ _ _ h
        · -- LPAREN
          split at h
          case h_2 => cases h
          case h_1 e r1 heq1 =>
            obtain ⟨c1, hc1, hl1⟩ := ihE _ _ _ _ heq1
            split at h
            · cases h
            · split at h
              case h_2 => cases h
              case h_1 =>
                cases h
                rename_i c r2 hrp
                refine ⟨t :: c1 ++ [c], ?_, ?_⟩
                · rw [hc1]; simp
                · simp only [Ast.tokCount, List.length_cons, List.length_append,
                    List.length_nil]
                  omega
        · cases h
    · intro p lhs ts a r h
      cases ts with
      | nil =>
        simp only [run] at h
        cases h
        exact ⟨[], by simp, by simp⟩
      | cons t r0 =>
        simp only [run] at h
        split at h
        · -- AND continuation
          split at h
          case h_2 => cases h
          case h_1 rhs r1 heq1 =>
            obtain ⟨c1, hc1, hl1⟩ := ihE _ _ _ _ heq1
            obtain ⟨c2, hc2, hl2⟩ := ihL _ _ _ _ _ h
            refine ⟨t :: c1 ++ c2, ?_, ?_⟩
            · rw [hc1, hc2]; simp
            · simp only [Ast.tokCount] at hl2
              simp only [List.length_cons, List.length_append]
              omega
        · split at h
          · -- OR continuation
            split at h
            case h_2 => cases h
            case h_1 rhs r1 heq1 =>
              obtain ⟨c1, hc1, hl1⟩ := ihE _ _ _ _ heq1
              obtain ⟨c2, hc2, hl2⟩ := ihL _ _ _ _ _ h
              refine ⟨t :: c1 ++ c2, ?_, ?_⟩
              · rw [hc1, hc2]; simp
              · simp only [Ast.tokCount] at hl2
                simp only [List.length_cons, List.length_append]
                omega
          · -- loop exit
            cases h
            exact ⟨[], by simp, by simp⟩

/-- Modelled from the spec: the `GraphView` interface of section 6 (the
evaluator is not part of the sources under verification; only the parser is).
A graph snapshot exposes its node-identifier set, the `name` attribute of a
node, and direct predecessors (`upstreamOf`) / successors (`downstreamOf`). -/
structure GraphView where
  allNodes : Finset String
  nameOf : String → String
  upstreamOf : String → Finset String
  downstreamOf : String → Finset String

/-- Modelled from the spec: one hop of a traversal frontier expansion — the
current set together with every direct neighbour of a member. -/
def hopStep (step : String → Finset String) (s : Finset String) : Finset String :=
  s ∪ s.biUnion step

/-- Modelled from the spec: nodes reachable from `s` within `n` hops along
`step` (a breadth-first walk bounded by hop count; the set union keeps visited
nodes, so cycles terminate). -/
def hopsWithin (step : String → Finset String) : Nat → Finset String → Finset String
  | 0, s => s
  | n + 1, s => hopsWithin step n (hopStep step s)

/-- Modelled from the spec: the hop bound denoted by a traversal qualifier on a
given graph — `n` for a run of `n` PLUS tokens, and for `*` the number of
nodes of the graph, which bounds every path length, making the walk effectively
unbounded while still terminating on cyclic graphs. -/
def travBound (g : GraphView) : Trav → Nat
  | .star => g.allNodes.card
  | .plus n => n

/-- Modelled from the spec: substring test on the underlying character lists. -/
def charsContain (needle : List Char) : List Char → Bool
  | [] => needle.isEmpty
  | c :: rest => List.isPrefixOf needle (c :: rest) || charsContain needle rest

/-- Modelled from the spec: the evaluator of section 4.3.  `All` matches every
node; `name:` is exact match and `name_substring:` substring match on the
`name` attribute; `not` complements within the node universe; `and`/`or` are
intersection/union; traversals add ancestors/descendants within the hop bound,
an up-and-down traversal computing both expansions independently from the same
anchor set; parentheses are transparent. -/
def evalSel (g : GraphView) : Ast → Finset String
  | .all => g.allNodes
  | .attr .name v => g.allNodes.filter (fun x => g.nameOf x = v)
  | .attr .nameSubstring v =>
      g.allNodes.filter (fun x => charsContain v.data (g.nameOf x).data = true)
  | .not e => g.allNodes \ evalSel g e
  | .and l r => evalSel g l ∩ evalSel g r
  | .or l r => evalSel g l ∪ evalSel g r
  | .up q e => hopsWithin g.upstreamOf (travBound g q) (evalSel g e)
  | .down e q => hopsWithin g.downstreamOf (travBound g q) (evalSel g e)
  | .upDown q1 e q2 =>
      hopsWithin g.upstreamOf (travBound g q1) (evalSel g e) ∪
        hopsWithin g.downstreamOf (travBound g q2) (evalSel g e)
  | .paren e => evalSel g e

/-- A PLUS token (position and text fixed; the parser only inspects kinds). -/
def plusTok : Tok := ⟨.PLUS, "+", 0⟩

/-- A STAR token. -/
def starTok : Tok := ⟨.STAR, "*", 0⟩

/-- Concrete token run denoting a traversal qualifier: `[*]` for `star`, a run
of `n` `+` tokens for `plus n`. -/
def travToks : Trav → List Tok
  | .star => [starTok]
  | .plus n => List.replicate n plusTok

/-- Token run of the attribute expression `name:v` with `v` unquoted. -/
def attrToks (v : String) : List Tok :=
  [⟨.NAME, "name", 0⟩, ⟨.COLON, ":", 0⟩, ⟨.UNQUOTED_STRING, v, 0⟩]

/-- A well-formed traversal qualifier: a PLUS run is nonempty. -/
def Trav.wf : Trav → Prop
  | .star => True
  | .plus n => 1 ≤ n

/-- `plusRun` stops immediately when the next token is not PLUS. -/
theorem plusRun_stop (r : List Tok)
    (hr : ∀ x, r.head? = some x → x.kind ≠ TokKind.PLUS) :
    plusRun r = (0, r) := by
  cases r with
  | nil => rfl
  | cons t r0 =>
    have ht := hr t rfl
    cases hk : t.kind <;> simp [plusRun, hk]
    exact ht hk

/-- `plusRun` consumes a whole leading run of PLUS tokens. -/
theorem plusRun_append (c r : List Tok)
    (hc : ∀ x ∈ c, x.kind = TokKind.PLUS)
    (hr : ∀ x, r.head? = some x → x.kind ≠ TokKind.PLUS) :
    plusRun (c ++ r) = (c.length, r) := by
  induction c with
  | nil => simpa using plusRun_stop r hr
  | cons t c0 ih =>
    have ht : t.kind = TokKind.PLUS := hc t (by simp)
    have ih0 := ih (fun x hx => hc x (by simp [hx]))
    simp [plusRun, ht, ih0]

/-- The `traversal` rule consumes a whole well-formed qualifier token run when
the following token is not PLUS. -/
theorem traversal_travToks (q : Trav) (r : List Tok) (hq : q.wf)
    (hr : ∀ x, r.head? = some x → x.kind ≠ TokKind.PLUS) :
    traversal (travToks q ++ r) = .ok q r := by
  cases q with
  | star => simp [travToks, starTok, traversal]
  | plus n =>
    cases n with
    | zero => cases hq
    | succ m =>
      have hall : ∀ x ∈ List.replicate m plusTok, x.kind = TokKind.PLUS := by
        intro x hx
        simp [List.eq_of_mem_replicate hx, plusTok]
      have hrun := plusRun_append (List.replicate m plusTok) r hall hr
      rw [List.length_replicate] at hrun
      simp only [travToks, List.replicate_succ, List.cons_append, traversal, plusTok]
      simp only [plusTok] at hrun
      rw [hrun]

/-- A well-formed qualifier token run begins with STAR or PLUS. -/
theorem startsTraversal_travToks (q : Trav) (hq : q.wf) :
    startsTraversal (travToks q) = true := by
  cases q with
  | star => rfl
  | plus n =>
    cases n with
    | zero => cases hq
    | succ m => simp [travToks, List.replicate_succ, startsTraversal, plusTok]

/-- The AND/OR loop at end of input returns the accumulated left operand. -/
theorem run_loop_nil (f p : Nat) (lhs : Ast) :
    run (f + 1) (.loop p lhs []) = .ok lhs [] := rfl

/-- An `expr` consisting of a leading qualifier, an attribute expression, and a
trailing qualifier parses as a single up-and-down traversal recording the two
qualifiers separately. -/
theorem run_expr_upDown (f : Nat) (q1 q2 : Trav) (v : String)
    (h1 : q1.wf) (h2 : q2.wf) :
    run (f + 2) (.expr 0 (travToks q1 ++ (attrToks v ++ travToks q2))) =
      .ok (.upDown q1 (.attr .name v) q2) [] := by
  cases q1 with
  | star =>
    cases q2 with
    | star => rfl
    | plus n =>
      cases n with
      | zero => cases h2
      | succ k =>
        have hall : ∀ x ∈ List.replicate k (Tok.mk TokKind.PLUS "+" 0),
            x.kind = TokKind.PLUS := by
          intro x hx
          simp [List.eq_of_mem_replicate hx]
        have hrun2 : plusRun (List.replicate k (Tok.mk .PLUS "+" 0)) = (k, []) := by
          have h := plusRun_append (List.replicate k (Tok.mk .PLUS "+" 0)) [] hall (by simp)
          simpa using h
        simp only [run, starTok, plusTok, attrToks, travToks, List.replicate_succ,
          List.cons_append, List.nil_append, startsTae, startsTraversal, traversal,
          attributeExpr, value, hrun2]
  | plus n1 =>
    cases n1 with
    | zero => cases h1
    | succ m =>
      have hall1 : ∀ x ∈ List.replicate m (Tok.mk TokKind.PLUS "+" 0),
          x.kind = TokKind.PLUS := by
        intro x hx
        simp [List.eq_of_mem_replicate hx]
      have hrun1 : ∀ X : List Tok,
          plusRun (List.replicate m (Tok.mk .PLUS "+" 0) ++ (Tok.mk .NAME "name" 0 :: X)) =
            (m, Tok.mk .NAME "name" 0 :: X) := by
        intro X
        have h := plusRun_append (List.replicate m (Tok.mk .PLUS "+" 0))
          (Tok.mk .NAME "name" 0 :: X) hall1 (by intro x hx; cases hx; simp)
        simpa using h
      cases q2 with
      | star =>
        simp only [run, starTok, plusTok, attrToks, travToks, List.replicate_succ,
          List.cons_append, List.nil_append, startsTae, startsTraversal, traversal,
          attributeExpr, value, hrun1]
      | plus n =>
        cases n with
        | zero => cases h2
        | succ k =>
          have hall2 : ∀ x ∈ List.replicate k (Tok.mk TokKind.PLUS "+" 0),
              x.kind = TokKind.PLUS := by
            intro x hx
            simp [List.eq_of_mem_replicate hx]
          have hrun2 : plusRun (List.replicate k (Tok.mk .PLUS "+" 0)) = (k, []) := by
            have h := plusRun_append (List.replicate k (Tok.mk .PLUS "+" 0)) [] hall2 (by simp)
            simpa using h
          simp only [run, starTok, plusTok, attrToks, travToks, List.replicate_succ,
            List.cons_append, List.nil_append, startsTae, startsTraversal, traversal,
            attributeExpr, value, hrun1, hrun2]

/-- An AND keyword token. -/
def andTok : Tok := ⟨.AND, "and", 0⟩

/-- An OR keyword token. -/
def orTok : Tok := ⟨.OR, "or", 0⟩

/-- A NOT keyword token. -/
def notTok : Tok := ⟨.NOT, "not", 0⟩

/-- Every successful `attributeExpr` parse has exactly the shape
attribute-keyword, colon, value token, with the keyword one of the two
attribute kinds and the value a quoted or unquoted string. -/
theorem attributeExpr_shape (ts : List Tok) (a : Ast) (r : List Tok)
    (h : attributeExpr ts = .ok a r) :
    ∃ kt ct vt, ts = kt :: ct :: vt :: r ∧
      (kt.kind = TokKind.NAME ∧ a = .attr .name vt.text ∨
        kt.kind = TokKind.NAME_SUBSTRING ∧ a = .attr .nameSubstring vt.text) ∧
      ct.kind = TokKind.COLON ∧
      (vt.kind = TokKind.QUOTED_STRING ∨ vt.kind = TokKind.UNQUOTED_STRING) := by
  cases ts with
  | nil => simp [attributeExpr] at h
  | cons t r0 =>
    cases hk : t.kind
    case NAME =>
      simp only [attributeExpr, hk] at h
      cases r0 with
      | nil => cases h
      | cons c r1 =>
        cases hc : c.kind <;> simp only [hc] at h <;> try cases h
        case COLON =>
          cases hv : value r1 with
          | err e => rw [hv] at h; cases h
          | ok v r2 =>
            rw [hv] at h
            cases h
            obtain ⟨hr1, hvk⟩ := value_consume _ _ _ hv
            exact ⟨t, c, v, by rw [hr1], Or.inl ⟨hk, rfl⟩, hc, hvk⟩
    case NAME_SUBSTRING =>
      simp only [attributeExpr, hk] at h
      cases r0 with
      | nil => cases h
      | cons c r1 =>
        cases hc : c.kind <;> simp only [hc] at h <;> try cases h
        case COLON =>
          cases hv : value r1 with
          | err e => rw [hv] at h; cases h
          | ok v r2 =>
            rw [hv] at h
            cases h
            obtain ⟨hr1, hvk⟩ := value_consume _ _ _ hv
            exact ⟨t, c, v, by rw [hr1], Or.inr ⟨hk, rfl⟩, hc, hvk⟩
    all_goals simp [attributeExpr, hk] at h

/-- Modelled from the spec: the chain graph `a -> foo -> b` of testable-property
scenario 2, with each node's `name` attribute equal to its identifier. -/
def chainGraph : GraphView where
  allNodes := {"a", "foo", "b"}
  nameOf := fun x => x
  upstreamOf := fun x => if x = "foo" then {"a"} else if x = "b" then {"foo"} else ∅
  downstreamOf := fun x => if x = "a" then {"foo"} else if x = "foo" then {"b"} else ∅

/-- On success, `start` has consumed the entire token stream: the input length
equals the token count of the returned AST. -/
theorem start_length (ts : List Tok) (ast : Ast) (h : start ts = .ok ast) :
    ts.length = Ast.tokCount ast := by
  unfold start at h
  split at h
  case h_1 a heq =>
    cases h
    obtain ⟨c, hc, hl⟩ := (run_consume (parseFuel ts)).1 _ _ _ _ heq
    rw [hc]
    simpa using hl
  case h_2 => cases h
  case h_3 => cases h

/-- Enumerated qualifier placements for the traversal-shape decision: absent,
`*`, `+`, or `++`. -/
def qualOf : Fin 4 → Option Trav
  | 0 => none
  | 1 => some .star
  | 2 => some (.plus 1)
  | 3 => some (.plus 2)

/-- Token run of an optional traversal qualifier. -/
def qualToks : Option Trav → List Tok
  | none => []
  | some q => travToks q

/-- The traversal shape the production ordering commits to for given leading
and trailing qualifiers: up-and-down when both are present (checked first),
else up-only for a leading qualifier, else down-only for a trailing one, else
the untraversed expression. -/
def shapeExpected : Option Trav → Option Trav → Ast → Ast
  | none, none, a => a
  | some q, none, a => .up q a
  | none, some q, a => .down a q
  | some q1, some q2, a => .upDown q1 a q2

/-- C1: every qualifier run accepted by the `traversal` production is a single
STAR token (unbounded depth) or a nonempty run of PLUS tokens whose denoted
hop depth is exactly the count of PLUS tokens; conversely every well-formed
run is accepted with that depth, the evaluator's bound for `plus n` is `n`,
and no other leading token (or an empty input) is accepted. -/
theorem c1_traversal_token_run :
    (∀ ts q rest, traversal ts = .ok q rest →
      (∃ t, ts = t :: rest ∧ t.kind = TokKind.STAR ∧ q = .star) ∨
      (∃ c, ts = c ++ rest ∧ c ≠ [] ∧ (∀ x ∈ c, x.kind = TokKind.PLUS) ∧
        q = .plus c.length))
    ∧ (∀ q r, q.wf → (∀ x, r.head? = some x → x.kind ≠ TokKind.PLUS) →
        traversal (travToks q ++ r) = .ok q r)
    ∧ (∀ g n, travBound g (.plus n) = n)
    ∧ (∀ t rest, t.kind ≠ TokKind.STAR → t.kind ≠ TokKind.PLUS →
        traversal (t :: rest) = .err (some t))
    ∧ traversal [] = .err none := by
  refine ⟨?_, traversal_travToks, fun _ _ => rfl, ?_, rfl⟩
  · intro ts q rest h
    cases ts with
    | nil => simp [traversal] at h
    | cons t r0 =>
      cases hk : t.kind
      case STAR =>
        simp only [traversal, hk] at h
        cases h
        exact Or.inl ⟨t, rfl, hk, rfl⟩
      case PLUS =>
        simp only [traversal, hk] at h
        cases h
        obtain ⟨c, hc, hl, hall⟩ := plusRun_consume r0
        refine Or.inr ⟨t :: c, by simp only [List.cons_append]; rw [← hc], by simp, ?_, ?_⟩
        · intro x hx
          rcases List.mem_cons.mp hx with h | h
          · subst h; exact hk
          · exact hall x h
        · simp [hl]
      all_goals simp [traversal, hk] at h
  · intro t rest h1 h2
    cases hk : t.kind
    case STAR => exact absurd hk h1
    case PLUS => exact absurd hk h2
    all_goals simp [traversal, hk]

/-- Witness for C1 at the concrete run `++` before a NAME token: the accepted
qualifier is the two PLUS tokens with denoted depth 2. -/
theorem c1_traversal_token_run_witness :
    (∃ t, [plusTok, plusTok, Tok.mk .NAME "name" 0] = t :: [Tok.mk .NAME "name" 0] ∧
      t.kind = TokKind.STAR ∧ Trav.plus 2 = .star) ∨
    (∃ c, [plusTok, plusTok, Tok.mk .NAME "name" 0] = c ++ [Tok.mk .NAME "name" 0] ∧
      c ≠ [] ∧ (∀ x ∈ c, x.kind = TokKind.PLUS) ∧ Trav.plus 2 = .plus c.length) :=
  c1_traversal_token_run.1 [plusTok, plusTok, Tok.mk .NAME "name" 0]
    (.plus 2) [Tok.mk .NAME "name" 0] (by rfl)

/-- C2 counterexample: the claimed input `+foo+` — the token sequence PLUS,
bare unquoted name `foo`, PLUS — does not parse: `traversalAllowedExpr` has no
alternative for a bare unquoted string, so `start` reports a syntax error at
the `foo` token instead of producing an up-and-down traversal. -/
theorem c2_counterexample :
    start [⟨.PLUS, "+", 0⟩, ⟨.UNQUOTED_STRING, "foo", 1⟩, ⟨.PLUS, "+", 4⟩] =
      .err (some ⟨.UNQUOTED_STRING, "foo", 1⟩) := rfl

/-- C2 amended: with the attribute form `+name:foo+` (one PLUS each side), the
input parses as an up-and-down traversal of depth 1 each way anchored at
`name:foo`, and on the chain graph `a -> foo -> b` it evaluates to
`{a, foo, b}`. -/
theorem c2_amended :
    start [⟨.PLUS, "+", 0⟩, ⟨.NAME, "name", 1⟩, ⟨.COLON, ":", 5⟩,
        ⟨.UNQUOTED_STRING, "foo", 6⟩, ⟨.PLUS, "+", 9⟩] =
      .ok (.upDown (.plus 1) (.attr .name "foo") (.plus 1)) ∧
    evalSel chainGraph (.upDown (.plus 1) (.attr .name "foo") (.plus 1)) =
      {"a", "foo", "b"} :=
  ⟨rfl, by decide⟩

/-- C3 counterexample: the traversal qualifier binds tighter than `not`, not
the other way around as the claimed precedence order `NOT > traversal` states:
`not name:a +` parses with the down-traversal applied to the attribute inside
the negation — `Not(Down(name:a, 1))` — not as a traversal of the negation. -/
theorem c3_counterexample :
    start [⟨.NOT, "not", 0⟩, ⟨.NAME, "name", 4⟩, ⟨.COLON, ":", 8⟩,
        ⟨.UNQUOTED_STRING, "a", 9⟩, ⟨.PLUS, "+", 10⟩] =
      .ok (.not (.down (.attr .name "a") (.plus 1))) ∧
    Ast.not (.down (.attr .name "a") (.plus 1)) ≠
      .down (.not (.attr .name "a")) (.plus 1) :=
  ⟨rfl, by decide⟩

/-- C3 amended: the precedence from tightest to loosest binding is
traversal > NOT > AND > OR.  `a or b and c` parses as `Or(a, And(b, c))`,
`not a and b` parses as `And(Not(a), b)`, a trailing traversal is grouped
inside a negation (`not a +` is `Not(Down(a,1))`), and a traversal-wrapped
expression is an operand of AND (`+a+ and b` is `And(UpDown(a), b)`). -/
theorem c3_amended :
    (∀ v1 v2 v3 : String,
      start (attrToks v1 ++ [orTok] ++ attrToks v2 ++ [andTok] ++ attrToks v3) =
        .ok (.or (.attr .name v1) (.and (.attr .name v2) (.attr .name v3))))
    ∧ (∀ v1 v2 : String,
      start ([notTok] ++ attrToks v1 ++ [andTok] ++ attrToks v2) =
        .ok (.and (.not (.attr .name v1)) (.attr .name v2)))
    ∧ (∀ v : String,
      start ([notTok] ++ attrToks v ++ [plusTok]) =
        .ok (.not (.down (.attr .name v) (.plus 1))))
    ∧ (∀ v1 v2 : String,
      start ([plusTok] ++ attrToks v1 ++ [plusTok, andTok] ++ attrToks v2) =
        .ok (.and (.upDown (.plus 1) (.attr .name v1) (.plus 1)) (.attr .name v2))) :=
  ⟨fun _ _ _ => rfl, fun _ _ => rfl, fun _ => rfl, fun _ _ => rfl⟩

/-- C4 counterexample: a token sequence forming a complete expression
(`name:a`) followed by additional non-EOF tokens (`or name:b`) does not make
`start` report a syntax error: the parser consumes the extension as part of a
larger expression and succeeds. -/
theorem c4_counterexample :
    start (attrToks "a" ++ ([orTok] ++ attrToks "b")) =
      .ok (.or (.attr .name "a") (.attr .name "b")) := rfl

/-- C4 amended: parsing succeeds only when the entire token stream is consumed
— on success the input length equals the AST's token count, so `start` never
returns an AST covering only a proper prefix of the input (appending nonempty
extra tokens can never reproduce the prefix's AST); trailing tokens that
cannot continue the expression, as in `name:a name:b`, are a syntax error. -/
theorem c4_whole_input :
    (∀ ts ast, start ts = .ok ast → ts.length = Ast.tokCount ast)
    ∧ (∀ ts extra ast ast2, extra ≠ [] → start ts = .ok ast →
        start (ts ++ extra) = .ok ast2 → ast2 ≠ ast)
    ∧ start (attrToks "a" ++ attrToks "b") = .err (some ⟨.NAME, "name", 0⟩) := by
  refine ⟨start_length, ?_, rfl⟩
  intro ts extra ast ast2 hne h1 h2 heq
  have l1 := start_length ts ast h1
  have l2 := start_length (ts ++ extra) ast2 h2
  rw [heq, List.length_append, ← l1] at l2
  have : extra.length = 0 := by omega
  exact hne (List.eq_nil_of_length_eq_zero this)

/-- Witness for C4 at `name:a` extended by `or name:b`: the larger parse's AST
differs from the prefix's AST. -/
theorem c4_whole_input_witness :
    Ast.or (.attr .name "a") (.attr .name "b") ≠ .attr .name "a" :=
  c4_whole_input.2.1 (attrToks "a") ([orTok] ++ attrToks "b")
    (.attr .name "a") (.or (.attr .name "a") (.attr .name "b"))
    (by simp [attrToks, orTok]) rfl rfl

/-- C5: a successful `traversalAllowedExpr` is exactly an attribute expression
(keyword, colon, value) or a parenthesized expression (leading LPAREN); every
other leading token is a syntax error at that token, in particular a bare
unquoted string, `not`, and `*` in traversal-qualified position. -/
theorem c5_traversalAllowedExpr_shape :
    (∀ f ts a r, traversalAllowedExpr f ts = .ok a r →
      (∃ kt ct vt, ts = kt :: ct :: vt :: r ∧
        (kt.kind = TokKind.NAME ∨ kt.kind = TokKind.NAME_SUBSTRING) ∧
        ct.kind = TokKind.COLON ∧
        (vt.kind = TokKind.QUOTED_STRING ∨ vt.kind = TokKind.UNQUOTED_STRING) ∧
        ∃ k, a = .attr k vt.text) ∨
      (∃ lp r0, ts = lp :: r0 ∧ lp.kind = TokKind.LPAREN ∧ ∃ e, a = .paren e))
    ∧ (∀ f t r, t.kind ≠ TokKind.NAME → t.kind ≠ TokKind.NAME_SUBSTRING →
        t.kind ≠ TokKind.LPAREN →
        traversalAllowedExpr (f + 1) (t :: r) = .err (some t))
    ∧ start [⟨.PLUS, "+", 0⟩, ⟨.UNQUOTED_STRING, "foo", 1⟩] =
        .err (some ⟨.UNQUOTED_STRING, "foo", 1⟩)
    ∧ start [⟨.PLUS, "+", 0⟩, ⟨.NOT, "not", 1⟩, ⟨.NAME, "name", 5⟩, ⟨.COLON, ":", 9⟩,
        ⟨.UNQUOTED_STRING, "a", 10⟩] = .err (some ⟨.NOT, "not", 1⟩)
    ∧ start [⟨.PLUS, "+", 0⟩, ⟨.STAR, "*", 1⟩] = .err (some ⟨.STAR, "*", 1⟩) := by
  refine ⟨?_, ?_, rfl, rfl, rfl⟩
  · intro f ts a r h
    unfold traversalAllowedExpr at h
    cases f with
    | zero => simp [run] at h
    | succ f =>
      cases ts with
      | nil => simp [run] at h
      | cons t r0 =>
        simp only [run] at h
        split at h
        · rename_i hk
          obtain ⟨kt, ct, vt, hts, hcase, hcol, hval⟩ := attributeExpr_shape _ _ _ h
          refine Or.inl ⟨kt, ct, vt, hts, ?_, hcol, hval, ?_⟩
          · rcases hcase with ⟨h1, -⟩ | ⟨h1, -⟩
            · exact Or.inl h1
            · exact Or.inr h1
          · rcases hcase with ⟨-, h2⟩ | ⟨-, h2⟩
            · exact ⟨.name, h2⟩
            · exact ⟨.nameSubstring, h2⟩
        · rename_i hk
          obtain ⟨kt, ct, vt, hts, hcase, hcol, hval⟩ := attributeExpr_shape _ _ _ h
          refine Or.inl ⟨kt, ct, vt, hts, ?_, hcol, hval, ?_⟩
          · rcases hcase with ⟨h1, -⟩ | ⟨h1, -⟩
            · exact Or.inl h1
            · exact Or.inr h1
          · rcases hcase with ⟨-, h2⟩ | ⟨-, h2⟩
            · exact ⟨.name, h2⟩
            · exact ⟨.nameSubstring, h2⟩
        · rename_i hk
          split at h
          case h_2 => cases h
          case h_1 e r1 heq1 =>
            split at h
            · cases h
            · split at h
              case h_2 => cases h
              case h_1 =>
                cases h
                exact Or.inr ⟨t, r0, rfl, hk, e, rfl⟩
        · cases h
  · intro f t r h1 h2 h3
    cases hk : t.kind
    case NAME => exact absurd hk h1
    case NAME_SUBSTRING => exact absurd hk h2
    case LPAREN => exact absurd hk h3
    all_goals simp [traversalAllowedExpr, run, hk]

/-- Witness for C5: a bare unquoted string in `traversalAllowedExpr` position
is rejected at that token. -/
theorem c5_traversalAllowedExpr_shape_witness :
    traversalAllowedExpr 1 [⟨.UNQUOTED_STRING, "foo", 0⟩] =
      .err (some ⟨.UNQUOTED_STRING, "foo", 0⟩) :=
  c5_traversalAllowedExpr_shape.2.1 0 ⟨.UNQUOTED_STRING, "foo", 0⟩ []
    (by decide) (by decide) (by decide)

/-- C6: for every combination of leading and trailing qualifier (absent, `*`,
`+`, `++`) around an attribute expression, the parser commits to the traversal
shape given by the production ordering: up-and-down whenever both qualifiers
are present (even though the up-only production also matches a prefix), up-only
for a leading qualifier alone, down-only for a trailing qualifier alone (even
though the untraversed production also matches a prefix), and the untraversed
expression otherwise. -/
theorem c6_shape_priority : ∀ i j : Fin 4,
    start (qualToks (qualOf i) ++ attrToks "v" ++ qualToks (qualOf j)) =
      .ok (shapeExpected (qualOf i) (qualOf j) (.attr .name "v")) := by decide

/-- C7: chains of the same boolean operator are left-associative:
`a and b and c` parses as `And(And(a, b), c)` and `a or b or c` as
`Or(Or(a, b), c)`, for arbitrary attribute values `a`, `b`, `c`. -/
theorem c7_left_assoc :
    (∀ v1 v2 v3 : String,
      start (attrToks v1 ++ [andTok] ++ attrToks v2 ++ [andTok] ++ attrToks v3) =
        .ok (.and (.and (.attr .name v1) (.attr .name v2)) (.attr .name v3)))
    ∧ (∀ v1 v2 v3 : String,
      start (attrToks v1 ++ [orTok] ++ attrToks v2 ++ [orTok] ++ attrToks v3) =
        .ok (.or (.or (.attr .name v1) (.attr .name v2)) (.attr .name v3))) :=
  ⟨fun _ _ _ => rfl, fun _ _ _ => rfl⟩

/-- C8 counterexample: on `foo* or bar` (tokens `foo`@0, `*`@3, `or`@5,
`bar`@8) the parser fails, but the offending token of the reported syntax
error is the bare name `foo` at position 0 — no `expr` alternative can begin
with an unquoted string, so prediction fails before the `*` at position 3 is
ever blamed. -/
theorem c8_counterexample :
    (∃ t, start [⟨.UNQUOTED_STRING, "foo", 0⟩, ⟨.STAR, "*", 3⟩, ⟨.OR, "or", 5⟩,
        ⟨.UNQUOTED_STRING, "bar", 8⟩] = .err (some t) ∧ t.pos = 0 ∧ t.pos ≠ 3) :=
  ⟨⟨.UNQUOTED_STRING, "foo", 0⟩, rfl, rfl, by decide⟩

/-- C8 amended: `foo* or bar` fails with a syntax error whose offending token
is the bare name `foo` at position 0 (a bare unquoted string cannot begin an
expression), not the `*`. -/
theorem c8_amended :
    start [⟨.UNQUOTED_STRING, "foo", 0⟩, ⟨.STAR, "*", 3⟩, ⟨.OR, "or", 5⟩,
        ⟨.UNQUOTED_STRING, "bar", 8⟩] =
      .err (some ⟨.UNQUOTED_STRING, "foo", 0⟩) := rfl

/-- C9: the attribute vocabulary is closed — a successful `attributeExpr` is
exactly `name COLON value` or `name_substring COLON value` with the value one
QUOTED_STRING or UNQUOTED_STRING token; any other leading keyword is a syntax
error, and `value` accepts exactly one token of those two kinds. -/
theorem c9_attribute_closed_vocab :
    (∀ ts a r, attributeExpr ts = .ok a r →
      ∃ kt ct vt, ts = kt :: ct :: vt :: r ∧
        (kt.kind = TokKind.NAME ∧ a = .attr .name vt.text ∨
          kt.kind = TokKind.NAME_SUBSTRING ∧ a = .attr .nameSubstring vt.text) ∧
        ct.kind = TokKind.COLON ∧
        (vt.kind = TokKind.QUOTED_STRING ∨ vt.kind = TokKind.UNQUOTED_STRING))
    ∧ (∀ t r, t.kind ≠ TokKind.NAME → t.kind ≠ TokKind.NAME_SUBSTRING →
        attributeExpr (t :: r) = .err (some t))
    ∧ (∀ ts v r, value ts = .ok v r →
        ts = v :: r ∧ (v.kind = TokKind.QUOTED_STRING ∨ v.kind = TokKind.UNQUOTED_STRING))
    ∧ (∀ t r, t.kind ≠ TokKind.QUOTED_STRING → t.kind ≠ TokKind.UNQUOTED_STRING →
        value (t :: r) = .err (some t)) := by
  refine ⟨attributeExpr_shape, ?_, value_consume, ?_⟩
  · intro t r h1 h2
    cases hk : t.kind
    case NAME => exact absurd hk h1
    case NAME_SUBSTRING => exact absurd hk h2
    all_goals simp [attributeExpr, hk]
  · intro t r h1 h2
    cases hk : t.kind
    case QUOTED_STRING => exact absurd hk h1
    case UNQUOTED_STRING => exact absurd hk h2
    all_goals simp [value, hk]

/-- Witness for C9 at the concrete tokens of `name:x`. -/
theorem c9_attribute_closed_vocab_witness :
    ∃ kt ct vt, attrToks "x" = kt :: ct :: vt :: ([] : List Tok) ∧
      (kt.kind = TokKind.NAME ∧ Ast.attr .name "x" = .attr .name vt.text ∨
        kt.kind = TokKind.NAME_SUBSTRING ∧ Ast.attr .name "x" = .attr .nameSubstring vt.text) ∧
      ct.kind = TokKind.COLON ∧
      (vt.kind = TokKind.QUOTED_STRING ∨ vt.kind = TokKind.UNQUOTED_STRING) :=
  c9_attribute_closed_vocab.1 (attrToks "x") (.attr .name "x") [] (by rfl)

/-- C10: the two qualifiers of an up-and-down traversal are parsed
independently: every combination of a well-formed leading and trailing
traversal run (STAR or a PLUS run, with possibly differing counts) around an
attribute expression parses as a single up-and-down traversal whose AST
records the up qualifier and the down qualifier separately. -/
theorem c10_upDown_independent (q1 q2 : Trav) (v : String)
    (h1 : q1.wf) (h2 : q2.wf) :
    start (travToks q1 ++ (attrToks v ++ travToks q2)) =
      .ok (.upDown q1 (.attr .name v) q2) := by
  unfold start
  have h := run_expr_upDown (3 * (travToks q1 ++ (attrToks v ++ travToks q2)).length)
    q1 q2 v h1 h2
  rw [show parseFuel (travToks q1 ++ (attrToks v ++ travToks q2)) =
    3 * (travToks q1 ++ (attrToks v ++ travToks q2)).length + 2 from rfl]
  rw [h]

/-- Witness for C10 at `++name:foo*`: leading depth 2, unbounded trailing. -/
theorem c10_upDown_independent_witness :
    start (travToks (.plus 2) ++ (attrToks "foo" ++ travToks .star)) =
      .ok (.upDown (.plus 2) (.attr .name "foo") .star) :=
  c10_upDown_independent (.plus 2) .star "foo" (by simp [Trav.wf]) trivial

end OpSelection
